import Mathlib

/-!
Verification of the transcript-summarization core of `cli-continues`.

This file embeds, as executable Lean definitions, the parts of the
TypeScript sources that the checked properties are about:

* the formatting helpers and the `SummaryCollector` accumulator from the
  shared tool summarizer (`tool-summarizer.ts`);
* the verbosity configuration system (`src/config/verbosity.ts`): the typed
  preset trees, `deepMerge` over plain JSON-like objects, `getPreset`,
  `mergeConfig`, the schema constraints, and `parseUserConfig`;
* the Claude transcript resolver (`src/parsers/claude.ts`):
  `isTerminationMessage`, `extractSubagentResult`, and
  `extractPendingFromThinking`.

Machine integers of the source are modelled as `Nat`/`Int`; JavaScript
strings are Lean `String`s (all inputs exercised here are ASCII, so the
UTF-16 code-unit view of JS and the `Char` view of Lean agree); JS `Map`
and `Set` are insertion-ordered association lists / duplicate-free lists,
which is exactly the iteration behaviour the source relies on; fallible
operations return `Except`/`Option`.
-/

/-! ## String helpers (tool-summarizer.ts) -/

/-- `truncate` from `tool-summarizer.ts`: return `s` unchanged when it fits in
`max` characters, otherwise keep the first `max - 3` characters and append
`"..."` (JS `s.slice(0, max - 3) + '...'`). -/
def truncate (s : String) (max : Nat) : String :=
  if s.length ≤ max then s else ⟨s.data.take (max - 3)⟩ ++ "..."

/-- Substring test on character lists (the semantics of JS
`String.prototype.includes` for the ASCII strings used here). -/
def containsSub (s pat : List Char) : Bool :=
  match s with
  | [] => pat.isEmpty
  | _ :: rest => pat.isPrefixOf s || containsSub rest pat

/-- JS `a.includes(b)` on Lean strings. -/
def strIncludes (s pat : String) : Bool := containsSub s.data pat.data

/-- JS `String.prototype.toLowerCase`, character by character. -/
def lowerStr (s : String) : String := ⟨s.data.map Char.toLower⟩

/-- The characters matched by `\s` in the source's regular expressions
(ASCII whitespace; the transcripts checked here contain no exotic spaces). -/
def isRegexSpace (c : Char) : Bool :=
  c = ' ' || c = '\t' || c = '\n' || c = '\r' || c = '\x0b' || c = '\x0c'

/-- Decimal value of a digit run, as JS `parseInt` computes it. -/
def digitsToNat (ds : List Char) : Nat :=
  ds.foldl (fun acc c => acc * 10 + (c.toNat - 48)) 0

/-- Case-insensitive literal match: strip the pattern `p` from the front of
`s`, comparing characters after lower-casing both sides (the `/i` flag). -/
def stripCaseFold : List Char → List Char → Option (List Char)
  | [], s => some s
  | _ :: _, [] => none
  | p :: ps, c :: cs => if c.toLower = p.toLower then stripCaseFold ps cs else none

/-- After the literal part of `/exit(?:ed with)? code[:\s]+(\d+)/i` has
matched, consume `[:\s]+` (greedy, at least one) and then capture `(\d+)`
(at least one digit).  The two character classes are disjoint, so the greedy
scan needs no backtracking. -/
def matchCodeTail (s : List Char) : Option Nat :=
  let ws := s.takeWhile (fun c => c = ':' || isRegexSpace c)
  let ds := (s.drop ws.length).takeWhile Char.isDigit
  if ws.isEmpty || ds.isEmpty then none else some (digitsToNat ds)

/-- Try to match `/exit(?:ed with)? code[:\s]+(\d+)/i` at the start of `s`,
with the greedy optional group `(?:ed with)?` tried first and backtracked
on failure, as the JS regex engine does. -/
def matchExitAt (s : List Char) : Option Nat :=
  (stripCaseFold "exit".data s).bind fun r1 =>
    let tryCode : List Char → Option Nat := fun r =>
      (stripCaseFold " code".data r).bind matchCodeTail
    match stripCaseFold "ed with".data r1 with
    | some r2 => (tryCode r2).orElse fun _ => tryCode r1
    | none => tryCode r1

/-- Leftmost match of the exit-code pattern, as JS `text.match(...)`. -/
def findExitCode : List Char → Option Nat
  | [] => none
  | c :: rest => (matchExitAt (c :: rest)).orElse fun _ => findExitCode rest

/-- `extractExitCode` from `tool-summarizer.ts`: `undefined` on missing or
empty text, otherwise the first captured decimal exit code. -/
def extractExitCode : Option String → Option Nat
  | none => none
  | some t => if t = "" then none else findExitCode t.data

/-- `shellSummary` from `tool-summarizer.ts`: `$ <cmd>` plus either the
parsed exit code or the truncated literal result text. -/
def shellSummary (cmd : String) (result : Option String) : String :=
  let s := "$ " ++ truncate cmd 80
  match extractExitCode result with
  | some code => s ++ " → exit " ++ toString code
  | none =>
    match result with
    | some r => if r = "" then s else s ++ " → \"" ++ truncate r 80 ++ "\""
    | none => s

/-! ## JSON-like object trees (the `Record<string, unknown>` values that
`deepMerge` and `parseUserConfig` in `verbosity.ts` operate on).

Configuration values are integers, booleans, strings and plain nested
objects, so those are the constructors; objects keep their keys in
insertion order, as JS objects do. -/

mutual
/-- A plain JS value as handled by `deepMerge`. -/
inductive Json where
  | num (n : Int)
  | str (s : String)
  | bool (b : Bool)
  | obj (fields : Fields)
deriving DecidableEq
/-- The ordered field list of a plain JS object. -/
inductive Fields where
  | nil
  | cons (k : String) (v : Json) (rest : Fields)
deriving DecidableEq
end

/-- Property read `o[k]` (first matching key). -/
def getF : Fields → String → Option Json
  | .nil, _ => none
  | .cons k1 v rest, k => if k1 = k then some v else getF rest k

/-- Property write `o[k] = v`: overwriting keeps the key's position,
a fresh key is appended — JS object key order. -/
def setF : Fields → String → Json → Fields
  | .nil, k, v => .cons k v .nil
  | .cons k1 v1 rest, k, v =>
      if k1 = k then .cons k v rest else .cons k1 v1 (setF rest k v)

mutual
/-- The loop body of `deepMerge` in `verbosity.ts`: fold the override
entries into the (already copied) base object. -/
def mergeFields : Fields → Fields → Fields
  | base, .nil => base
  | base, .cons k v rest => mergeFields (mergeStep base k v) rest
/-- One iteration of `deepMerge`'s `for` loop: recurse when both the base
value and the override value are plain objects, otherwise the override
value replaces the base value. -/
def mergeStep (base : Fields) (k : String) (v : Json) : Fields :=
  match getF base k, v with
  | some (.obj b), .obj o => setF base k (.obj (mergeFields b o))
  | _, _ => setF base k v
end

/-- `deepMerge` from `verbosity.ts`.  The source only ever applies it to two
plain objects (its signature is `Record`-typed); on a non-object override it
would iterate zero keys and return the base copy, which the fallback arm
mirrors. -/
def deepMerge : Json → Json → Json
  | .obj bf, .obj ov => .obj (mergeFields bf ov)
  | b, _ => b

/-- `mergeConfig` from `verbosity.ts`: deep-merge user overrides onto a base
configuration tree. -/
def mergeConfig (base overrides : Json) : Json := deepMerge base overrides

/-- Walk a path of keys down an object tree. -/
def lookupPath : Json → List String → Option Json
  | j, [] => some j
  | .obj f, k :: rest =>
      match getF f k with
      | some v => lookupPath v rest
      | none => none
  | _, _ :: _ => none

/-- Replace the value at a key path (specification helper used to state
"differs only at this leaf"). -/
def setPath : Json → List String → Json → Json
  | _, [], v => v
  | .obj f, k :: rest, v =>
      .obj (setF f k (setPath ((getF f k).getD (.obj .nil)) rest v))
  | j, _ :: _, _ => j

/-- The keys of an object node. -/
def keysF : Fields → List String
  | .nil => []
  | .cons k _ rest => k :: keysF rest

/-- Key uniqueness at one object node. -/
def nodupKeysF : Fields → Bool
  | .nil => true
  | .cons k _ rest => !(keysF rest).contains k && nodupKeysF rest

mutual
/-- Well-formedness of a JS value: every object node has pairwise distinct
keys (guaranteed for any value that exists as a JS object). -/
def wfJson : Json → Bool
  | .obj f => nodupKeysF f && wfFields f
  | _ => true
/-- Well-formedness of every value in a field list. -/
def wfFields : Fields → Bool
  | .nil => true
  | .cons _ v rest => wfJson v && wfFields rest
end

/-! ## Typed verbosity configuration (`verbosity.ts`) -/

/-- `ShellConfigSchema`. -/
structure ShellConfig where
  maxSamples : Nat
  stdoutLines : Nat
  stderrLines : Nat
  maxChars : Nat
  showCommand : Bool
  showExitCode : Bool
deriving DecidableEq

/-- `ReadConfigSchema`. -/
structure ReadConfig where
  maxSamples : Nat
  maxChars : Nat
  showLineRange : Bool
deriving DecidableEq

/-- `WriteConfigSchema`. -/
structure WriteConfig where
  maxSamples : Nat
  diffLines : Nat
  maxChars : Nat
deriving DecidableEq

/-- `EditConfigSchema` (same shape as the write schema). -/
structure EditConfig where
  maxSamples : Nat
  diffLines : Nat
  maxChars : Nat
deriving DecidableEq

/-- `GrepConfigSchema`. -/
structure GrepConfig where
  maxSamples : Nat
  maxChars : Nat
  showPattern : Bool
  matchLines : Nat
deriving DecidableEq

/-- `ThinkingToolsConfigSchema`. -/
structure ThinkingToolsConfig where
  extractReasoning : Bool
  maxReasoningChars : Nat
deriving DecidableEq

/-- `McpConfigSchema`. -/
structure McpConfig where
  maxSamplesPerNamespace : Nat
  paramChars : Nat
  resultChars : Nat
  thinkingTools : ThinkingToolsConfig
deriving DecidableEq

/-- `TaskConfigSchema`. -/
structure TaskConfig where
  maxSamples : Nat
  includeSubagentResults : Bool
  subagentResultChars : Nat
  recurseSubagents : Bool
deriving DecidableEq

/-- `ThinkingConfigSchema`.  The source field `include` is a Lean keyword,
so it is spelled `includeThinking` here. -/
structure ThinkingConfig where
  includeThinking : Bool
  maxChars : Nat
  maxHighlights : Nat
deriving DecidableEq

/-- `CompactSummaryConfigSchema`. -/
structure CompactSummaryConfig where
  maxChars : Nat
deriving DecidableEq

/-- `PendingTasksConfigSchema`. -/
structure PendingTasksConfig where
  extractFromThinking : Bool
  extractFromSubagents : Bool
  maxTasks : Nat
deriving DecidableEq

/-- `ClaudeAgentConfigSchema`. -/
structure ClaudeAgentConfig where
  filterProgressEvents : Bool
  parseSubagents : Bool
  parseToolResultsDir : Bool
  separateHumanFromToolResults : Bool
deriving DecidableEq

/-- `AgentsConfigSchema`: the `claude` subtree (its catchall of extra
per-agent flag records is absent from every preset and from the claims
checked here). -/
structure AgentsConfig where
  claude : ClaudeAgentConfig
deriving DecidableEq

/-- `VerbosityConfig`, the validated configuration tree. -/
structure VerbosityConfig where
  preset : String
  recentMessages : Nat
  maxMessageChars : Nat
  shell : ShellConfig
  read : ReadConfig
  write : WriteConfig
  edit : EditConfig
  grep : GrepConfig
  mcp : McpConfig
  task : TaskConfig
  thinking : ThinkingConfig
  compactSummary : CompactSummaryConfig
  pendingTasks : PendingTasksConfig
  agents : AgentsConfig
deriving DecidableEq

/-- `MINIMAL_PRESET` from `verbosity.ts`. -/
def minimalPreset : VerbosityConfig :=
  { preset := "minimal"
    recentMessages := 3
    maxMessageChars := 200
    shell := ⟨3, 3, 3, 500, true, true⟩
    read := ⟨5, 0, false⟩
    write := ⟨3, 20, 1000⟩
    edit := ⟨3, 20, 1000⟩
    grep := ⟨3, 200, true, 2⟩
    mcp := ⟨1, 50, 50, ⟨false, 0⟩⟩
    task := ⟨2, false, 0, false⟩
    thinking := ⟨false, 0, 0⟩
    compactSummary := ⟨200⟩
    pendingTasks := ⟨false, false, 5⟩
    agents := ⟨⟨true, false, false, false⟩⟩ }

/-- `STANDARD_PRESET` from `verbosity.ts`. -/
def standardPreset : VerbosityConfig :=
  { preset := "standard"
    recentMessages := 10
    maxMessageChars := 500
    shell := ⟨8, 5, 5, 2000, true, true⟩
    read := ⟨20, 0, true⟩
    write := ⟨5, 200, 5000⟩
    edit := ⟨5, 200, 5000⟩
    grep := ⟨10, 500, true, 5⟩
    mcp := ⟨5, 100, 100, ⟨true, 500⟩⟩
    task := ⟨5, true, 500, false⟩
    thinking := ⟨true, 1000, 5⟩
    compactSummary := ⟨500⟩
    pendingTasks := ⟨true, true, 10⟩
    agents := ⟨⟨true, true, true, true⟩⟩ }

/-- `VERBOSE_PRESET` from `verbosity.ts`. -/
def verbosePreset : VerbosityConfig :=
  { preset := "verbose"
    recentMessages := 20
    maxMessageChars := 2000
    shell := ⟨15, 20, 20, 8000, true, true⟩
    read := ⟨50, 500, true⟩
    write := ⟨15, 500, 10000⟩
    edit := ⟨15, 500, 10000⟩
    grep := ⟨20, 1000, true, 10⟩
    mcp := ⟨10, 500, 1000, ⟨true, 2000⟩⟩
    task := ⟨10, true, 2000, true⟩
    thinking := ⟨true, 5000, 10⟩
    compactSummary := ⟨1000⟩
    pendingTasks := ⟨true, true, 20⟩
    agents := ⟨⟨true, true, true, true⟩⟩ }

/-- `FULL_PRESET` from `verbosity.ts`. -/
def fullPreset : VerbosityConfig :=
  { preset := "full"
    recentMessages := 50
    maxMessageChars := 10000
    shell := ⟨999, 100, 100, 50000, true, true⟩
    read := ⟨999, 10000, true⟩
    write := ⟨999, 999, 50000⟩
    edit := ⟨999, 999, 50000⟩
    grep := ⟨999, 10000, true, 50⟩
    mcp := ⟨999, 10000, 10000, ⟨true, 10000⟩⟩
    task := ⟨999, true, 10000, true⟩
    thinking := ⟨true, 50000, 50⟩
    compactSummary := ⟨5000⟩
    pendingTasks := ⟨true, true, 100⟩
    agents := ⟨⟨true, true, true, true⟩⟩ }

/-- The `PRESETS` record, in declaration order. -/
def PRESETS : List (String × VerbosityConfig) :=
  [("minimal", minimalPreset), ("standard", standardPreset),
   ("verbose", verbosePreset), ("full", fullPreset)]

/-- First-match association-list lookup (JS `Record`/`Map` read). -/
def lookupAssoc {α : Type} : List (String × α) → String → Option α
  | [], _ => none
  | (k1, v) :: rest, k => if k1 = k then some v else lookupAssoc rest k

/-- The error message thrown by `getPreset` for an unknown name
(`Object.keys(PRESETS).join(', ')` lists the four preset names). -/
def unknownPresetMessage (name : String) : String :=
  "Unknown verbosity preset \"" ++ name ++ "\". Valid presets: minimal, standard, verbose, full"

/-- `getPreset` from `verbosity.ts`: a fresh copy of the named preset
(`structuredClone` is the identity on immutable values), or a thrown
`Error` — modelled as `Except.error` — naming the unknown preset. -/
def getPreset (name : String) : Except String VerbosityConfig :=
  match lookupAssoc PRESETS name with
  | some preset => .ok preset
  | none => .error (unknownPresetMessage name)

/-! ## The preset trees as plain objects

`deepMerge` and `parseUserConfig` manipulate configurations as plain
`Record<string, unknown>` values.  `jsonOfConfig` is the (faithful,
key-order-preserving) object view of a typed configuration: each preset
literal of `verbosity.ts` lists its keys in exactly this order. -/

/-- Build an ordered field list from a Lean list. -/
def fieldsOf : List (String × Json) → Fields
  | [] => .nil
  | (k, v) :: rest => .cons k v (fieldsOf rest)

/-- Object view of a `VerbosityConfig`, with the key order of the preset
literals in `verbosity.ts`. -/
def jsonOfConfig (c : VerbosityConfig) : Json :=
  .obj (fieldsOf
    [("preset", .str c.preset),
     ("recentMessages", .num c.recentMessages),
     ("maxMessageChars", .num c.maxMessageChars),
     ("shell", .obj (fieldsOf
        [("maxSamples", .num c.shell.maxSamples),
         ("stdoutLines", .num c.shell.stdoutLines),
         ("stderrLines", .num c.shell.stderrLines),
         ("maxChars", .num c.shell.maxChars),
         ("showCommand", .bool c.shell.showCommand),
         ("showExitCode", .bool c.shell.showExitCode)])),
     ("read", .obj (fieldsOf
        [("maxSamples", .num c.read.maxSamples),
         ("maxChars", .num c.read.maxChars),
         ("showLineRange", .bool c.read.showLineRange)])),
     ("write", .obj (fieldsOf
        [("maxSamples", .num c.write.maxSamples),
         ("diffLines", .num c.write.diffLines),
         ("maxChars", .num c.write.maxChars)])),
     ("edit", .obj (fieldsOf
        [("maxSamples", .num c.edit.maxSamples),
         ("diffLines", .num c.edit.diffLines),
         ("maxChars", .num c.edit.maxChars)])),
     ("grep", .obj (fieldsOf
        [("maxSamples", .num c.grep.maxSamples),
         ("maxChars", .num c.grep.maxChars),
         ("showPattern", .bool c.grep.showPattern),
         ("matchLines", .num c.grep.matchLines)])),
     ("mcp", .obj (fieldsOf
        [("maxSamplesPerNamespace", .num c.mcp.maxSamplesPerNamespace),
         ("paramChars", .num c.mcp.paramChars),
         ("resultChars", .num c.mcp.resultChars),
         ("thinkingTools", .obj (fieldsOf
            [("extractReasoning", .bool c.mcp.thinkingTools.extractReasoning),
             ("maxReasoningChars", .num c.mcp.thinkingTools.maxReasoningChars)]))])),
     ("task", .obj (fieldsOf
        [("maxSamples", .num c.task.maxSamples),
         ("includeSubagentResults", .bool c.task.includeSubagentResults),
         ("subagentResultChars", .num c.task.subagentResultChars),
         ("recurseSubagents", .bool c.task.recurseSubagents)])),
     ("thinking", .obj (fieldsOf
        [("include", .bool c.thinking.includeThinking),
         ("maxChars", .num c.thinking.maxChars),
         ("maxHighlights", .num c.thinking.maxHighlights)])),
     ("compactSummary", .obj (fieldsOf
        [("maxChars", .num c.compactSummary.maxChars)])),
     ("pendingTasks", .obj (fieldsOf
        [("extractFromThinking", .bool c.pendingTasks.extractFromThinking),
         ("extractFromSubagents", .bool c.pendingTasks.extractFromSubagents),
         ("maxTasks", .num c.pendingTasks.maxTasks)])),
     ("agents", .obj (fieldsOf
        [("claude", .obj (fieldsOf
           [("filterProgressEvents", .bool c.agents.claude.filterProgressEvents),
            ("parseSubagents", .bool c.agents.claude.parseSubagents),
            ("parseToolResultsDir", .bool c.agents.claude.parseToolResultsDir),
            ("separateHumanFromToolResults", .bool c.agents.claude.separateHumanFromToolResults)]))]))])

/-- The valid preset names (`PresetNameSchema`). -/
def presetNames : List String := ["minimal", "standard", "verbose", "full"]

/-- Object view of the preset with the given name (`PRESETS[name]` for a
valid name; `parseUserConfig` only asks for names it has checked against
`PRESETS`, so the fallback arm is dead code there). -/
def presetTreeFor (name : String) : Json :=
  if name = "minimal" then jsonOfConfig minimalPreset
  else if name = "verbose" then jsonOfConfig verbosePreset
  else if name = "full" then jsonOfConfig fullPreset
  else jsonOfConfig standardPreset

/-! ## The schema constraints (`VerbosityConfigSchema`)

Every numeric field of the schema is `z.number().int().min(0)`, every flag
is `z.boolean()`, and `preset` is an enum of the four preset names.  The
paths below enumerate those fields.  `validateConfig` is the acceptance
condition of `VerbosityConfigSchema.safeParse` on trees produced by
`deepMerge`-ing overrides onto a complete preset: such trees contain every
base key, so the schema's `.default(...)` clauses never fire, and unknown
keys are stripped rather than rejected, so they never cause failure. -/

/-- The paths of all numeric cap fields of `VerbosityConfigSchema`. -/
def capPaths : List (List String) :=
  [["recentMessages"], ["maxMessageChars"],
   ["shell", "maxSamples"], ["shell", "stdoutLines"], ["shell", "stderrLines"], ["shell", "maxChars"],
   ["read", "maxSamples"], ["read", "maxChars"],
   ["write", "maxSamples"], ["write", "diffLines"], ["write", "maxChars"],
   ["edit", "maxSamples"], ["edit", "diffLines"], ["edit", "maxChars"],
   ["grep", "maxSamples"], ["grep", "maxChars"], ["grep", "matchLines"],
   ["mcp", "maxSamplesPerNamespace"], ["mcp", "paramChars"], ["mcp", "resultChars"],
   ["mcp", "thinkingTools", "maxReasoningChars"],
   ["task", "maxSamples"], ["task", "subagentResultChars"],
   ["thinking", "maxChars"], ["thinking", "maxHighlights"],
   ["compactSummary", "maxChars"],
   ["pendingTasks", "maxTasks"]]

/-- The paths of all boolean flag fields of `VerbosityConfigSchema`. -/
def flagPaths : List (List String) :=
  [["shell", "showCommand"], ["shell", "showExitCode"],
   ["read", "showLineRange"],
   ["grep", "showPattern"],
   ["mcp", "thinkingTools", "extractReasoning"],
   ["task", "includeSubagentResults"], ["task", "recurseSubagents"],
   ["thinking", "include"],
   ["pendingTasks", "extractFromThinking"], ["pendingTasks", "extractFromSubagents"],
   ["agents", "claude", "filterProgressEvents"], ["agents", "claude", "parseSubagents"],
   ["agents", "claude", "parseToolResultsDir"],
   ["agents", "claude", "separateHumanFromToolResults"]]

/-- Does the tree hold a non-negative integer at this numeric cap path? -/
def capOKAt (t : Json) (p : List String) : Bool :=
  match lookupPath t p with
  | some (.num n) => decide (0 ≤ n)
  | _ => false

/-- Does the tree hold a boolean at this flag path? -/
def flagOKAt (t : Json) (p : List String) : Bool :=
  match lookupPath t p with
  | some (.bool _) => true
  | _ => false

/-- Is the `preset` field, when present, one of the four enum values?
(The schema supplies a default when it is absent.) -/
def presetFieldOK (t : Json) : Bool :=
  match lookupPath t ["preset"] with
  | some (.str s) => presetNames.contains s
  | some _ => false
  | none => true

/-- Acceptance of `VerbosityConfigSchema.safeParse` on a merged tree:
all numeric caps are non-negative integers, all flags are booleans, and the
preset name is valid. -/
def validateConfig (t : Json) : Bool :=
  presetFieldOK t && capPaths.all (capOKAt t) && flagPaths.all (flagOKAt t)

/-- The base-preset selection of `parseUserConfig`:
`typeof raw.preset === 'string' && raw.preset in PRESETS`. -/
def selectedPresetName (rf : Fields) : String :=
  match getF rf "preset" with
  | some (.str s) => if presetNames.contains s then s else "standard"
  | _ => "standard"

/-- `parseUserConfig` from `verbosity.ts`: select the base preset, deep-merge
the raw overrides onto it, validate; on validation failure fall back to the
base preset.  On success zod returns the parsed data — the merged tree (the
stripping of unknown keys is not modelled; no property below looks at the
success branch's unknown keys). -/
def parseUserConfig (raw : Json) : Json :=
  match raw with
  | .obj rf =>
      let base := presetTreeFor (selectedPresetName rf)
      let merged := deepMerge base raw
      if validateConfig merged then merged else base
  | _ => presetTreeFor "standard"

/-! ## Sample collector (`tool-summarizer.ts`) -/

/-- Modelled from the spec: `StructuredToolSample` is declared in
`src/types/index.ts`, which is not among the sources here.  Per the spec's
data model it is a closed tagged variant with one shape per category; no
property below inspects its payloads, so the payloads are kept to the
fields the spec names. -/
inductive StructuredToolSample where
  | shell (command : String) (exitCode : Option Nat) (stdoutTail : List String) (isError : Bool)
  | read (path : String) (lineStart lineEnd : Option Nat)
  | write (path : String) (isNewFile : Bool) (diff : String) (added removed : Nat)
  | edit (path : String) (diff : String) (added removed : Nat)
  | grep (pattern : String) (target : Option String) (matchCount : Option Nat)
  | glob (pattern : String) (resultCount : Option Nat)
  | search (query : String)
  | fetch (url : String) (preview : Option String)
  | task (description : String) (agentType : Option String) (result : Option String)
  | ask (question : String)
  | mcp (toolName : String) (paramsPreview resultPreview : Option String)
deriving DecidableEq

/-- `ToolSample`: one-line summary plus optional structured data. -/
structure ToolSample where
  summary : String
  data : Option StructuredToolSample := none
deriving DecidableEq

/-- `ToolUsageSummary`: category name, exact invocation count, error count
(present only when nonzero) and the retained samples. -/
structure ToolUsageSummary where
  name : String
  count : Nat
  errorCount : Option Nat
  samples : List ToolSample
deriving DecidableEq

/-- `buildCategoryLimits` from `tool-summarizer.ts`: the per-category sample
caps derived from a `VerbosityConfig`, as a key-ordered record. -/
def buildCategoryLimits (config : VerbosityConfig) : List (String × Nat) :=
  [("Bash", config.shell.maxSamples), ("shell", config.shell.maxSamples),
   ("Write", config.write.maxSamples), ("write", config.write.maxSamples),
   ("Edit", config.edit.maxSamples), ("edit", config.edit.maxSamples),
   ("Read", config.read.maxSamples), ("read", config.read.maxSamples),
   ("Grep", config.grep.maxSamples), ("Glob", config.grep.maxSamples),
   ("WebSearch", config.grep.maxSamples), ("WebFetch", config.grep.maxSamples),
   ("Task", config.mcp.maxSamplesPerNamespace), ("TaskOutput", config.mcp.maxSamplesPerNamespace),
   ("AskUserQuestion", config.mcp.maxSamplesPerNamespace)]

/-- `DEFAULT_SAMPLE_LIMIT` from `tool-summarizer.ts`. -/
def DEFAULT_SAMPLE_LIMIT : Nat := 5

/-- `AddSampleOptions` for `SummaryCollector.add`. -/
structure AddSampleOptions where
  data : Option StructuredToolSample := none
  filePath : Option String := none
  isWrite : Bool := false
  isError : Bool := false
deriving DecidableEq

/-- One per-category accumulator entry of the collector's `Map`. -/
structure CollectorEntry where
  count : Nat
  errorCount : Nat
  samples : List ToolSample
deriving DecidableEq

/-- `SummaryCollector` state: the insertion-ordered category map, the
insertion-ordered deduplicated file set, and the category limits fixed at
construction. -/
structure SummaryCollector where
  data : List (String × CollectorEntry)
  files : List String
  categoryLimits : List (String × Nat)
deriving DecidableEq

/-- The collector constructor: `new SummaryCollector(config?)` resolves the
missing configuration to `getPreset('standard')`. -/
def SummaryCollector.create (config : Option VerbosityConfig) : SummaryCollector :=
  { data := [], files := [], categoryLimits := buildCategoryLimits (config.getD standardPreset) }

/-- In-place update of the first entry with the given key (a JS `Map` holds
one entry per key; mutating it keeps its position). -/
def updateAssoc {α : Type} : List (String × α) → String → (α → α) → List (String × α)
  | [], _, _ => []
  | (k1, v) :: rest, k, f =>
      if k1 = k then (k1, f v) :: rest else (k1, v) :: updateAssoc rest k f

/-- `Set.prototype.add`: append the path unless already present. -/
def addFileSet (files : List String) (p : String) : List String :=
  if p ∈ files then files else files ++ [p]

/-- `SummaryCollector.add` from `tool-summarizer.ts`: initialize the
category entry on first sight, bump `count` (and `errorCount` when flagged),
retain the sample only while the category's list is below its cap (the
configured cap, or `DEFAULT_SAMPLE_LIMIT` when the category has none), and
record the modified file when `isWrite` and `filePath` are both set. -/
def SummaryCollector.add (c : SummaryCollector) (category summary : String)
    (opts : AddSampleOptions) : SummaryCollector :=
  let data0 := if (lookupAssoc c.data category).isSome then c.data
               else c.data ++ [(category, ⟨0, 0, []⟩)]
  let maxSamples := (lookupAssoc c.categoryLimits category).getD DEFAULT_SAMPLE_LIMIT
  let data1 := updateAssoc data0 category fun e =>
    { count := e.count + 1
      errorCount := e.errorCount + (if opts.isError then 1 else 0)
      samples := if e.samples.length < maxSamples
                 then e.samples ++ [{ summary := summary, data := opts.data }]
                 else e.samples }
  { data := data1
    files := match opts.isWrite, opts.filePath with
             | true, some p => addFileSet c.files p
             | _, _ => c.files
    categoryLimits := c.categoryLimits }

/-- `SummaryCollector.trackFile`: record a modified path without touching
the category map. -/
def SummaryCollector.trackFile (c : SummaryCollector) (filePath : String) : SummaryCollector :=
  { c with files := addFileSet c.files filePath }

/-- One `ToolUsageSummary` from one map entry: the error count is emitted
only when nonzero. -/
def toSummary (kv : String × CollectorEntry) : ToolUsageSummary :=
  { name := kv.1
    count := kv.2.count
    errorCount := if kv.2.errorCount > 0 then some kv.2.errorCount else none
    samples := kv.2.samples }

/-- `SummaryCollector.getSummaries`: one summary per category, in first-seen
order. -/
def SummaryCollector.getSummaries (c : SummaryCollector) : List ToolUsageSummary :=
  c.data.map toSummary

/-- `SummaryCollector.getFilesModified`: the deduplicated modified-file
list, in first-seen order. -/
def SummaryCollector.getFilesModified (c : SummaryCollector) : List String :=
  c.files

/-- One call against a collector: `add(...)` or `trackFile(...)`. -/
inductive CollectorOp where
  | add (category summary : String) (opts : AddSampleOptions)
  | trackFile (filePath : String)
deriving DecidableEq

/-- Apply one call. -/
def applyOp (c : SummaryCollector) : CollectorOp → SummaryCollector
  | .add category summary opts => c.add category summary opts
  | .trackFile p => c.trackFile p

/-- Apply a sequence of calls, oldest first. -/
def runOps (c : SummaryCollector) : List CollectorOp → SummaryCollector
  | [] => c
  | op :: rest => runOps (applyOp c op) rest

/-- How many of the calls are `add`s for this category. -/
def countCategory (ops : List CollectorOp) (cat : String) : Nat :=
  ops.countP fun op => match op with
    | .add c1 _ _ => c1 = cat
    | _ => false

/-! ## Claude transcript model (`src/parsers/claude.ts`) -/

/-- A content block of a transcript message.  `toolUse` carries the tool
name and its `input` record (absent when the block has none). -/
inductive ContentBlock where
  | text (text : String)
  | toolUse (name : String) (input : Option Fields)
  | toolResult
  | thinking (thinking : String)
  | otherBlock (type : String)
deriving DecidableEq

/-- `message.content` is either a plain string or a block array. -/
inductive MessageContent where
  | str (s : String)
  | blocks (bs : List ContentBlock)
deriving DecidableEq

/-- The `message` payload of a transcript event. -/
structure MessageBody where
  role : String
  content : Option MessageContent
deriving DecidableEq

/-- A transcript event (`ClaudeMessage`), reduced to the fields the
functions below read. -/
structure ClaudeMessage where
  type : String
  message : Option MessageBody
deriving DecidableEq

/-- Modelled from the spec: `extractTextFromBlocks` lives in
`src/utils/content.ts`, which is not among the sources here.  Per the spec's
data model, a message's text content is the concatenation of its `text`
blocks (string content is taken as-is); the blocks are joined with
newlines. -/
def extractTextFromBlocks : Option MessageContent → String
  | some (.str s) => s
  | some (.blocks bs) =>
      String.intercalate "\n" (bs.filterMap fun b =>
        match b with
        | .text t => if t = "" then none else some t
        | _ => none)
  | none => ""

/-- `isTerminationMessage` from `claude.ts`: the lexical rate-limit /
termination heuristic. -/
def isTerminationMessage (text : String) : Bool :=
  let lower := lowerStr text
  strIncludes lower "out of extra usage" ||
  strIncludes lower "rate limit" ||
  strIncludes lower "resets " ||
  (text.length < 50 && (strIncludes lower "usage" || strIncludes lower "limit"))

/-- Subagent status. -/
inductive SubagentStatus where
  | completed
  | killed
deriving DecidableEq

/-- The result record of `extractSubagentResult`. -/
structure SubagentOutcome where
  text : Option String
  status : SubagentStatus
  toolCallCount : Nat
deriving DecidableEq

/-- The loop state of `extractSubagentResult`. -/
structure SubagentScan where
  toolCallCount : Nat
  lastSubstantialText : Option String
  wasKilled : Bool
deriving DecidableEq

/-- The `tool_use` blocks of a content array. -/
def countToolUse (bs : List ContentBlock) : Nat :=
  bs.countP fun b => match b with
    | .toolUse _ _ => true
    | _ => false

/-- One iteration of `extractSubagentResult`'s message loop: assistant
messages with an array content contribute their `tool_use` count, update the
last substantial text, and set the killed flag when their text matches the
termination heuristic. -/
def subagentScanStep (st : SubagentScan) (m : ClaudeMessage) : SubagentScan :=
  if m.type = "assistant" then
    match m.message with
    | some body =>
        match body.content with
        | some (.blocks bs) =>
            let text := extractTextFromBlocks (some (.blocks bs))
            { toolCallCount := st.toolCallCount + countToolUse bs
              lastSubstantialText :=
                if text ≠ "" && text.length > 50 && !isTerminationMessage text
                then some text else st.lastSubstantialText
              wasKilled := st.wasKilled || (text ≠ "" && isTerminationMessage text) }
        | _ => st
    | none => st
  else st

/-- `extractSubagentResult` from `claude.ts`.  Reading the subagent JSONL
file is done by `readJsonlFile` (an external utility); the argument is its
outcome: `.error` when the file is missing, unreadable or malformed — the
function's `catch` branch — and `.ok` with the parsed messages otherwise. -/
def extractSubagentResult (input : Except String (List ClaudeMessage)) : SubagentOutcome :=
  match input with
  | .error _ => { text := none, status := .killed, toolCallCount := 0 }
  | .ok msgs =>
      let st := msgs.foldl subagentScanStep ⟨0, none, false⟩
      { text := st.lastSubstantialText
        status := if st.wasKilled then .killed else .completed
        toolCallCount := st.toolCallCount }

/-- The texts the subagent scan inspects: one per assistant message with an
array content, in file order. -/
def assistantTexts (msgs : List ClaudeMessage) : List String :=
  msgs.filterMap fun m =>
    if m.type = "assistant" then
      match m.message with
      | some body =>
          match body.content with
          | some (.blocks bs) => some (extractTextFromBlocks (some (.blocks bs)))
          | _ => none
      | none => none
    else none

/-- A nonempty text matching the termination heuristic (what sets
`wasKilled`). -/
def terminationSeen (t : String) : Bool := t ≠ "" && isTerminationMessage t

/-- "Substantial" assistant text in the claim's sense: non-empty, longer
than the 50-character minimum, not a termination message. -/
def substantialText (t : String) : Bool :=
  t ≠ "" && t.length > 50 && !isTerminationMessage t

/-- The claimed status condition, written from the claim's words: some text
matches the termination heuristic and no substantial text appears after
it. -/
def claimedKilled : List String → Bool
  | [] => false
  | t :: rest =>
      (terminationSeen t && rest.all fun u => !substantialText u) || claimedKilled rest

/-- JS `String.prototype.trim` on the ASCII whitespace the transcripts
contain. -/
def trimStr (s : String) : String :=
  ⟨((s.data.dropWhile isRegexSpace).reverse.dropWhile isRegexSpace).reverse⟩

/-- The thinking-tool name set of `extractPendingFromThinking`. -/
def thinkingToolNames : List String :=
  ["crash-think-tool", "must-use-think-tool-crash-crash", "sequential-thinking", "think"]

/-- The body of the inner block loop of `extractPendingFromThinking`: a
thinking `tool_use` block whose `next_action` is a string longer than 5
characters contributes it, trimmed and truncated to 200 characters, unless
it is an exact duplicate of a task already held. -/
def pendingStep (tasks : List String) (b : ContentBlock) : List String :=
  match b with
  | .toolUse name input =>
      if thinkingToolNames.contains name then
        match input with
        | some inp =>
            match getF inp "next_action" with
            | some (.str na) =>
                if na.length > 5 then
                  if truncate (trimStr na) 200 ∈ tasks then tasks
                  else tasks ++ [truncate (trimStr na) 200]
                else tasks
            | _ => tasks
        | none => tasks
      else tasks
  | _ => tasks

/-- The inner block loop of `extractPendingFromThinking`: run `pendingStep`
over the blocks, stopping as soon as `maxTasks` tasks are held. -/
def collectFromBlocks (maxTasks : Nat) (tasks : List String) : List ContentBlock → List String
  | [] => tasks
  | b :: rest =>
      if maxTasks ≤ tasks.length then tasks
      else collectFromBlocks maxTasks (pendingStep tasks b) rest

/-- What one message contributes to the pending-task walk: only assistant
messages with an array content run the block loop. -/
def pendingMsgStep (maxTasks : Nat) (tasks : List String) (m : ClaudeMessage) : List String :=
  if m.type = "assistant" then
    match m.message with
    | some body =>
        match body.content with
        | some (.blocks bs) => collectFromBlocks maxTasks tasks bs
        | _ => tasks
    | none => tasks
  else tasks

/-- The outer message loop of `extractPendingFromThinking`, already put in
walk order (the source iterates indices downwards; here the list has been
reversed). -/
def extractPendingAux (maxTasks : Nat) : List ClaudeMessage → List String → List String
  | [], tasks => tasks
  | m :: rest, tasks =>
      if maxTasks ≤ tasks.length then tasks
      else extractPendingAux maxTasks rest (pendingMsgStep maxTasks tasks m)

/-- `extractPendingFromThinking` from `claude.ts`: walk the messages
backwards (most recent first) collecting deduplicated `next_action`
strings, up to `maxTasks`. -/
def extractPendingFromThinking (messages : List ClaudeMessage) (maxTasks : Nat) : List String :=
  extractPendingAux maxTasks messages.reverse []

/-- Modelled from the spec: the tool-call extraction pipeline
(`src/utils/tool-extraction.ts`, not among the sources here) correlates a
shell invocation with its result text, builds the one-line summary with
`shellSummary`, and hands it to the collector under the `shell` category
with the result's error flag (§4.4); the collector and `shellSummary`
themselves are embedded from the source above.  Structured stdout-tail
capture is omitted — no property below reads sample `data`. -/
def extractShellTranscript (cmd : String) (resultText : Option String) (isError : Bool)
    (config : VerbosityConfig) : List ToolUsageSummary :=
  let c := SummaryCollector.create (some config)
  let c := c.add "shell" (shellSummary cmd resultText)
    { data := none, filePath := none, isWrite := false, isError := isError }
  c.getSummaries

/-! ## Theorems -/

/-- C10: for `3 ≤ max`, `truncate` returns `s` unchanged when it fits, and
otherwise returns exactly the first `max - 3` characters of `s` followed by
`"..."` — a string of length exactly `max`, so the output never exceeds
`max` characters. -/
theorem truncate_spec (s : String) (max : Nat) (h3 : 3 ≤ max) :
    (s.length ≤ max → truncate s max = s) ∧
    (max < s.length →
      (truncate s max).length = max ∧
      truncate s max = (⟨s.data.take (max - 3)⟩ : String) ++ "...") := by
  constructor
  · intro h
    simp [truncate, h]
  · intro h
    have hne : ¬ s.length ≤ max := by omega
    refine ⟨?_, by simp [truncate, hne]⟩
    have hd : s.length = s.data.length := rfl
    unfold truncate
    rw [if_neg hne]
    show (s.data.take (max - 3) ++ "...".data).length = max
    rw [List.length_append, List.length_take]
    have h3d : "...".data.length = 3 := rfl
    omega

/-- Witness for C10 at `s = "hello world"`, `max = 8`. -/
theorem truncate_spec_witness :
    3 ≤ 8 ∧ (truncate "hello world" 8).length = 8 ∧ truncate "hello world" 8 = "hello..." :=
  ⟨by decide, ((truncate_spec "hello world" 8 (by decide)).2 (by decide)).1, by decide⟩

/-- C6: when the subagent transcript file cannot be read (any read error),
`extractSubagentResult` returns status `killed`, a zero tool-call count and
null text instead of propagating the failure. -/
theorem subagent_missing_file_killed (err : String) :
    extractSubagentResult (.error err)
      = { text := none, status := .killed, toolCallCount := 0 } := rfl

/-- C9: `getPreset` returns each of the four presets for its name and
raises the named unknown-preset error for every other name. -/
theorem getPreset_spec :
    (∀ name : String, name ∉ presetNames →
        getPreset name = .error (unknownPresetMessage name)) ∧
    getPreset "minimal" = .ok minimalPreset ∧
    getPreset "standard" = .ok standardPreset ∧
    getPreset "verbose" = .ok verbosePreset ∧
    getPreset "full" = .ok fullPreset := by
  refine ⟨?_, rfl, rfl, rfl, rfl⟩
  intro name h
  simp only [presetNames, List.mem_cons, List.not_mem_nil, or_false, not_or] at h
  obtain ⟨h1, h2, h3, h4⟩ := h
  simp [getPreset, PRESETS, lookupAssoc, Ne.symm h1, Ne.symm h2, Ne.symm h3, Ne.symm h4]

/-- Witness for C9 at the unknown name `"bogus"`. -/
theorem getPreset_spec_witness :
    "bogus" ∉ presetNames ∧
    getPreset "bogus" = .error (unknownPresetMessage "bogus") :=
  ⟨by decide, getPreset_spec.1 "bogus" (by decide)⟩

/-- C4: merging an empty override tree onto any configuration tree (in
particular any preset) returns it unchanged, and merging
`{shell: {maxSamples: 1}}` onto the `standard` preset yields exactly the
standard tree with that single leaf replaced; every other numeric leaf and
every flag leaf (in particular all siblings of `shell.maxSamples`) still
holds its standard default. -/
theorem mergeConfig_spec :
    (∀ c : VerbosityConfig, mergeConfig (jsonOfConfig c) (.obj .nil) = jsonOfConfig c) ∧
    mergeConfig (jsonOfConfig standardPreset)
        (.obj (.cons "shell" (.obj (.cons "maxSamples" (.num 1) .nil)) .nil))
      = setPath (jsonOfConfig standardPreset) ["shell", "maxSamples"] (.num 1) ∧
    (capPaths.all fun p =>
      decide (p = ["shell", "maxSamples"]) ||
      decide (lookupPath (mergeConfig (jsonOfConfig standardPreset)
          (.obj (.cons "shell" (.obj (.cons "maxSamples" (.num 1) .nil)) .nil))) p
        = lookupPath (jsonOfConfig standardPreset) p)) = true ∧
    (flagPaths.all fun p =>
      decide (lookupPath (mergeConfig (jsonOfConfig standardPreset)
          (.obj (.cons "shell" (.obj (.cons "maxSamples" (.num 1) .nil)) .nil))) p
        = lookupPath (jsonOfConfig standardPreset) p)) = true := by
  refine ⟨fun c => rfl, by decide, by decide, by decide⟩

/-- C7: one shell invocation `pnpm test` whose correlated result text is
`"exited with code: 0\nOK"`, extracted under the `standard` configuration,
yields exactly one `shell` summary with count 1, no error count, and the
sample line `$ pnpm test → exit 0`, which contains `$ pnpm test` and the
exit code 0 parsed from the result text. -/
theorem shell_transcript_summary :
    extractShellTranscript "pnpm test" (some "exited with code: 0\nOK") false standardPreset
      = [{ name := "shell", count := 1, errorCount := none,
           samples := [{ summary := "$ pnpm test → exit 0", data := none }] }] ∧
    strIncludes "$ pnpm test → exit 0" "$ pnpm test" = true ∧
    extractExitCode (some "exited with code: 0\nOK") = some 0 := by
  refine ⟨by decide, by decide, by decide⟩

/-- The text the subagent scan derives from one message, when the message
is an assistant message with an array content. -/
def assistantTextOf (m : ClaudeMessage) : Option String :=
  if m.type = "assistant" then
    match m.message with
    | some body =>
        match body.content with
        | some (.blocks bs) => some (extractTextFromBlocks (some (.blocks bs)))
        | _ => none
    | none => none
  else none

/-- `assistantTexts` is the per-message text extraction mapped over the
file. -/
theorem assistantTexts_eq_filterMap (msgs : List ClaudeMessage) :
    assistantTexts msgs = msgs.filterMap assistantTextOf := by
  unfold assistantTexts assistantTextOf
  rfl

/-- One scan step sets the killed flag exactly when the message's text is a
nonempty termination message. -/
theorem subagentScanStep_wasKilled (st : SubagentScan) (m : ClaudeMessage) :
    (subagentScanStep st m).wasKilled
      = (st.wasKilled || (match assistantTextOf m with
          | some t => terminationSeen t
          | none => false)) := by
  unfold subagentScanStep assistantTextOf terminationSeen
  by_cases h : m.type = "assistant"
  · simp only [h, if_true]
    cases hm : m.message with
    | none => simp
    | some body =>
        cases hc : body.content with
        | none => simp [hc]
        | some mc =>
            cases mc with
            | str s => simp [hc]
            | blocks bs => simp [hc]
  · simp [h]

/-- Over a whole scan, the killed flag is the disjunction of the per-text
termination tests. -/
theorem scan_wasKilled (msgs : List ClaudeMessage) :
    ∀ st : SubagentScan,
      (msgs.foldl subagentScanStep st).wasKilled
        = (st.wasKilled || (assistantTexts msgs).any terminationSeen) := by
  induction msgs with
  | nil => intro st; simp [assistantTexts]
  | cons m rest ih =>
      intro st
      rw [List.foldl_cons, ih, subagentScanStep_wasKilled]
      simp only [assistantTexts_eq_filterMap, List.filterMap_cons]
      cases h : assistantTextOf m with
      | none => simp [h]
      | some t => simp [h, Bool.or_assoc]

/-- C2, corrected: `extractSubagentResult` reports `killed` exactly when
some assistant message's nonempty text matches the termination heuristic —
whether or not substantial text follows it. -/
theorem subagent_killed_iff_termination_seen (msgs : List ClaudeMessage) :
    (extractSubagentResult (.ok msgs)).status = .killed
      ↔ (assistantTexts msgs).any terminationSeen = true := by
  show (if (msgs.foldl subagentScanStep ⟨0, none, false⟩).wasKilled
        then SubagentStatus.killed else .completed) = .killed
      ↔ (assistantTexts msgs).any terminationSeen = true
  rw [scan_wasKilled msgs ⟨0, none, false⟩]
  cases h : (assistantTexts msgs).any terminationSeen <;> simp

/-- Counterexample to C2 as stated: a transcript whose first assistant text
is the termination notice `"rate limit"` and whose second assistant text is
substantial (non-empty, longer than 50 characters, not termination-like).
Substantial text follows the termination text, so the claim requires status
`completed`; the code keeps its sticky killed flag and reports `killed`. -/
theorem subagent_killed_counterexample :
    (extractSubagentResult (.ok
      [⟨"assistant", some ⟨"assistant", some (.blocks [.text "rate limit"])⟩⟩,
       ⟨"assistant", some ⟨"assistant", some (.blocks
         [.text "All sixty characters of a perfectly normal final answer text."])⟩⟩])).status
      = .killed ∧
    claimedKilled (assistantTexts
      [⟨"assistant", some ⟨"assistant", some (.blocks [.text "rate limit"])⟩⟩,
       ⟨"assistant", some ⟨"assistant", some (.blocks
         [.text "All sixty characters of a perfectly normal final answer text."])⟩⟩])
      = false := by
  refine ⟨by decide, by decide⟩

/-- One pending-task step either keeps the task list or appends one task
that is not yet in it. -/
theorem pendingStep_shape (tasks : List String) (b : ContentBlock) :
    pendingStep tasks b = tasks ∨
    ∃ t, t ∉ tasks ∧ pendingStep tasks b = tasks ++ [t] := by
  unfold pendingStep
  cases b with
  | toolUse name input =>
      repeat' split
      all_goals first
        | exact .inl rfl
        | (rename_i hmem; exact .inr ⟨_, hmem, rfl⟩)
  | text t => exact .inl rfl
  | toolResult => exact .inl rfl
  | thinking t => exact .inl rfl
  | otherBlock ty => exact .inl rfl

/-- The inner block loop keeps the task list duplicate-free and never grows
it past `maxTasks`. -/
theorem collectFromBlocks_inv (maxTasks : Nat) :
    ∀ (bs : List ContentBlock) (tasks : List String),
      tasks.Nodup → tasks.length ≤ maxTasks →
      (collectFromBlocks maxTasks tasks bs).Nodup ∧
      (collectFromBlocks maxTasks tasks bs).length ≤ maxTasks := by
  intro bs
  induction bs with
  | nil => intro tasks h1 h2; exact ⟨h1, h2⟩
  | cons b rest ih =>
      intro tasks h1 h2
      unfold collectFromBlocks
      by_cases hfull : maxTasks ≤ tasks.length
      · simp only [hfull, if_true]; exact ⟨h1, h2⟩
      · simp only [hfull, if_false]
        rcases pendingStep_shape tasks b with h | ⟨t, htmem, h⟩
        · rw [h]; exact ih tasks h1 h2
        · rw [h]
          refine ih (tasks ++ [t]) ?_ ?_
          · simp [List.nodup_append, h1, htmem]
          · rw [List.length_append]
            simp only [List.length_singleton]
            omega

/-- One message step preserves the same invariant. -/
theorem pendingMsgStep_inv (maxTasks : Nat) (tasks : List String) (m : ClaudeMessage)
    (h1 : tasks.Nodup) (h2 : tasks.length ≤ maxTasks) :
    (pendingMsgStep maxTasks tasks m).Nodup ∧
    (pendingMsgStep maxTasks tasks m).length ≤ maxTasks := by
  unfold pendingMsgStep
  by_cases hty : m.type = "assistant"
  · simp only [hty, if_true]
    rcases hm : m.message with _ | body
    · exact ⟨h1, h2⟩
    · rcases hc : body.content with _ | mc
      · simp only [hc]; exact ⟨h1, h2⟩
      · rcases mc with s | bs
        · simp only [hc]; exact ⟨h1, h2⟩
        · simp only [hc]
          exact collectFromBlocks_inv maxTasks bs tasks h1 h2
  · simp only [hty, if_false]
    exact ⟨h1, h2⟩

/-- The outer message loop preserves the same invariant. -/
theorem extractPendingAux_inv (maxTasks : Nat) :
    ∀ (msgs : List ClaudeMessage) (tasks : List String),
      tasks.Nodup → tasks.length ≤ maxTasks →
      (extractPendingAux maxTasks msgs tasks).Nodup ∧
      (extractPendingAux maxTasks msgs tasks).length ≤ maxTasks := by
  intro msgs
  induction msgs with
  | nil => intro tasks h1 h2; exact ⟨h1, h2⟩
  | cons m rest ih =>
      intro tasks h1 h2
      unfold extractPendingAux
      by_cases hfull : maxTasks ≤ tasks.length
      · simp only [hfull, if_true]; exact ⟨h1, h2⟩
      · simp only [hfull, if_false]
        have hstep := pendingMsgStep_inv maxTasks tasks m h1 h2
        exact ih _ hstep.1 hstep.2

/-- Counterexample to C3 as stated: with the literal one-character
next-action strings `"A"`, `"B"`, `"A"`, `"C"`, every string fails the
source's `nextAction.length > 5` guard, so the inferred pending-task list
is empty, not `["C", "A", "B"]`. -/
theorem pending_tasks_counterexample :
    extractPendingFromThinking
      [⟨"assistant", some ⟨"assistant", some (.blocks
         [.toolUse "sequential-thinking" (some (.cons "next_action" (.str "A") .nil))])⟩⟩,
       ⟨"assistant", some ⟨"assistant", some (.blocks
         [.toolUse "sequential-thinking" (some (.cons "next_action" (.str "B") .nil))])⟩⟩,
       ⟨"assistant", some ⟨"assistant", some (.blocks
         [.toolUse "sequential-thinking" (some (.cons "next_action" (.str "A") .nil))])⟩⟩,
       ⟨"assistant", some ⟨"assistant", some (.blocks
         [.toolUse "sequential-thinking" (some (.cons "next_action" (.str "C") .nil))])⟩⟩]
      standardPreset.pendingTasks.maxTasks = [] ∧
    ([] : List String) ≠ ["C", "A", "B"] :=
  ⟨by decide, by decide⟩

/-- C3, amended: the walk visits the messages most-recent-first,
deduplicates by exact text and stops at the configured maximum; for
reasoning steps whose next-action strings are (chronologically)
`"action A"`, `"action B"`, `"action A"`, `"action C"` — each longer than
the 5-character minimum the source imposes — the inferred list is
`["action C", "action A", "action B"]`. -/
theorem pending_tasks_spec :
    extractPendingFromThinking
      [⟨"assistant", some ⟨"assistant", some (.blocks
         [.toolUse "sequential-thinking" (some (.cons "next_action" (.str "action A") .nil))])⟩⟩,
       ⟨"assistant", some ⟨"assistant", some (.blocks
         [.toolUse "sequential-thinking" (some (.cons "next_action" (.str "action B") .nil))])⟩⟩,
       ⟨"assistant", some ⟨"assistant", some (.blocks
         [.toolUse "sequential-thinking" (some (.cons "next_action" (.str "action A") .nil))])⟩⟩,
       ⟨"assistant", some ⟨"assistant", some (.blocks
         [.toolUse "sequential-thinking" (some (.cons "next_action" (.str "action C") .nil))])⟩⟩]
      standardPreset.pendingTasks.maxTasks
      = ["action C", "action A", "action B"] ∧
    ∀ (messages : List ClaudeMessage) (maxTasks : Nat),
      (extractPendingFromThinking messages maxTasks).Nodup ∧
      (extractPendingFromThinking messages maxTasks).length ≤ maxTasks := by
  refine ⟨by decide, fun messages maxTasks => ?_⟩
  unfold extractPendingFromThinking
  exact extractPendingAux_inv maxTasks messages.reverse [] List.nodup_nil (Nat.zero_le _)

/-- Lookup across list append. -/
theorem lookupAssoc_append {α : Type} (l m : List (String × α)) (k : String) :
    lookupAssoc (l ++ m) k
      = match lookupAssoc l k with
        | some v => some v
        | none => lookupAssoc m k := by
  induction l with
  | nil => rfl
  | cons kv rest ih =>
      rcases kv with ⟨k1, v⟩
      by_cases h : k1 = k
      · simp [lookupAssoc, h]
      · simp [lookupAssoc, h, ih]

/-- Updating a key changes exactly that key's value. -/
theorem lookupAssoc_update_self {α : Type} (l : List (String × α)) (k : String) (f : α → α) :
    lookupAssoc (updateAssoc l k f) k = (lookupAssoc l k).map f := by
  induction l with
  | nil => rfl
  | cons kv rest ih =>
      rcases kv with ⟨k1, v⟩
      by_cases h : k1 = k
      · simp [updateAssoc, lookupAssoc, h]
      · simp [updateAssoc, lookupAssoc, h, ih]

/-- Updating one key leaves every other key's value unchanged. -/
theorem lookupAssoc_update_ne {α : Type} (l : List (String × α)) (k1 k : String) (f : α → α)
    (h : k1 ≠ k) : lookupAssoc (updateAssoc l k1 f) k = lookupAssoc l k := by
  induction l with
  | nil => rfl
  | cons kv rest ih =>
      rcases kv with ⟨k2, v⟩
      by_cases h2 : k2 = k1
      · subst h2
        simp [updateAssoc, lookupAssoc, h]
      · by_cases h3 : k2 = k
        · simp [updateAssoc, lookupAssoc, h2, h3, Ne.symm h]
        · simp [updateAssoc, lookupAssoc, h2, h3, ih]

/-- Updating never changes the key sequence. -/
theorem updateAssoc_map_fst {α : Type} (l : List (String × α)) (k : String) (f : α → α) :
    (updateAssoc l k f).map Prod.fst = l.map Prod.fst := by
  induction l with
  | nil => rfl
  | cons kv rest ih =>
      rcases kv with ⟨k1, v⟩
      by_cases h : k1 = k
      · simp [updateAssoc, h]
      · simp [updateAssoc, h, ih]

/-- A key is absent exactly when lookup fails. -/
theorem lookupAssoc_eq_none_iff {α : Type} (l : List (String × α)) (k : String) :
    lookupAssoc l k = none ↔ k ∉ l.map Prod.fst := by
  induction l with
  | nil => simp [lookupAssoc]
  | cons kv rest ih =>
      rcases kv with ⟨k1, v⟩
      by_cases h : k1 = k
      · simp [lookupAssoc, h]
      · simp [lookupAssoc, h, ih, Ne.symm h]

/-- The per-category invocation count the collector currently holds. -/
def countOf (c : SummaryCollector) (cat : String) : Nat :=
  ((lookupAssoc c.data cat).map CollectorEntry.count).getD 0

/-- `add` bumps the added category's count by one. -/
theorem add_countOf_self (c : SummaryCollector) (cat summary : String)
    (opts : AddSampleOptions) :
    countOf (c.add cat summary opts) cat = countOf c cat + 1 := by
  unfold countOf SummaryCollector.add
  cases h : lookupAssoc c.data cat with
  | some e =>
      simp only [h, Option.isSome_some, if_true, lookupAssoc_update_self, h]
      rfl
  | none =>
      simp only [h, Option.isSome_none, Bool.false_eq_true, if_false,
        lookupAssoc_update_self, lookupAssoc_append, h]
      simp [lookupAssoc]

/-- `add` leaves every other category's count unchanged. -/
theorem add_countOf_ne (c : SummaryCollector) (cat summary : String)
    (opts : AddSampleOptions) (cat2 : String) (hne : cat ≠ cat2) :
    countOf (c.add cat summary opts) cat2 = countOf c cat2 := by
  unfold countOf SummaryCollector.add
  cases h : lookupAssoc c.data cat with
  | some e =>
      simp only [h, Option.isSome_some, if_true]
      rw [lookupAssoc_update_ne _ _ _ _ hne]
  | none =>
      simp only [h, Option.isSome_none, Bool.false_eq_true, if_false]
      rw [lookupAssoc_update_ne _ _ _ _ hne, lookupAssoc_append]
      have : lookupAssoc [(cat, (⟨0, 0, []⟩ : CollectorEntry))] cat2 = none := by
        simp [lookupAssoc, hne]
      rw [this]
      cases lookupAssoc c.data cat2 <;> rfl

/-- `trackFile` leaves the category map unchanged. -/
theorem trackFile_data (c : SummaryCollector) (p : String) :
    (c.trackFile p).data = c.data := rfl

/-- Neither collector call changes the category limits. -/
theorem applyOp_categoryLimits (c : SummaryCollector) (op : CollectorOp) :
    (applyOp c op).categoryLimits = c.categoryLimits := by
  cases op <;> rfl

/-- Running calls never changes the category limits. -/
theorem runOps_categoryLimits (ops : List CollectorOp) :
    ∀ c : SummaryCollector, (runOps c ops).categoryLimits = c.categoryLimits := by
  induction ops with
  | nil => intro c; rfl
  | cons op rest ih => intro c; rw [runOps, ih, applyOp_categoryLimits]

/-- Running calls adds exactly the per-category `add` tally to each count. -/
theorem runOps_countOf (ops : List CollectorOp) :
    ∀ (c : SummaryCollector) (cat : String),
      countOf (runOps c ops) cat = countOf c cat + countCategory ops cat := by
  induction ops with
  | nil => intro c cat; simp [runOps, countCategory]
  | cons op rest ih =>
      intro c cat
      rw [runOps, ih]
      rcases op with ⟨cat1, s1, opts1⟩ | p
      · by_cases h : cat1 = cat
        · subst h
          rw [show applyOp c (.add cat1 s1 opts1) = c.add cat1 s1 opts1 from rfl,
              add_countOf_self]
          simp [countCategory, List.countP_cons]
          omega
        · rw [show applyOp c (.add cat1 s1 opts1) = c.add cat1 s1 opts1 from rfl,
              add_countOf_ne c cat1 s1 opts1 cat h]
          simp [countCategory, List.countP_cons, h]
      · rw [show applyOp c (.trackFile p) = c.trackFile p from rfl]
        unfold countOf
        rw [trackFile_data]
        simp [countCategory, List.countP_cons]

/-- The cap the collector applies to one category. -/
def limitOf (c : SummaryCollector) (cat : String) : Nat :=
  (lookupAssoc c.categoryLimits cat).getD DEFAULT_SAMPLE_LIMIT

/-- Sample-cap invariant: every held entry's sample list is within its
category's cap. -/
def sampleInv (c : SummaryCollector) : Prop :=
  ∀ (cat : String) (e : CollectorEntry),
    lookupAssoc c.data cat = some e → e.samples.length ≤ limitOf c cat

/-- A fresh collector satisfies the sample-cap invariant. -/
theorem sampleInv_create (config : Option VerbosityConfig) :
    sampleInv (SummaryCollector.create config) := by
  intro cat e h
  simp [SummaryCollector.create, lookupAssoc] at h

/-- `add` preserves the sample-cap invariant. -/
theorem sampleInv_add (c : SummaryCollector) (cat summary : String)
    (opts : AddSampleOptions) (h : sampleInv c) :
    sampleInv (c.add cat summary opts) := by
  intro cat2 e2 h2
  have hlim : limitOf (c.add cat summary opts) cat2 = limitOf c cat2 := rfl
  rw [hlim]
  unfold SummaryCollector.add at h2
  by_cases hcat : cat = cat2
  · subst hcat
    rw [lookupAssoc_update_self] at h2
    cases hl : lookupAssoc c.data cat with
    | some e =>
        have hdata0 : (if (lookupAssoc c.data cat).isSome = true then c.data
            else c.data ++ [(cat, (⟨0, 0, []⟩ : CollectorEntry))]) = c.data := by
          rw [hl]; simp
        rw [hdata0, hl] at h2
        simp only [Option.map_some', Option.some_inj] at h2
        subst h2
        simp only []
        by_cases hfit : e.samples.length < (lookupAssoc c.categoryLimits cat).getD DEFAULT_SAMPLE_LIMIT
        · rw [if_pos hfit, List.length_append, List.length_singleton]
          simp only [limitOf]
          omega
        · rw [if_neg hfit]
          exact h cat e hl
    | none =>
        have hdata0 : (if (lookupAssoc c.data cat).isSome = true then c.data
            else c.data ++ [(cat, (⟨0, 0, []⟩ : CollectorEntry))])
              = c.data ++ [(cat, (⟨0, 0, []⟩ : CollectorEntry))] := by
          rw [hl]; simp
        rw [hdata0, lookupAssoc_append, hl] at h2
        have hsingle : lookupAssoc [(cat, (⟨0, 0, []⟩ : CollectorEntry))] cat
            = some ⟨0, 0, []⟩ := by simp [lookupAssoc]
        rw [hsingle] at h2
        simp only [Option.map_some', Option.some_inj] at h2
        subst h2
        simp only [List.length_nil]
        by_cases hfit : (0 : Nat) < (lookupAssoc c.categoryLimits cat).getD DEFAULT_SAMPLE_LIMIT
        · rw [if_pos hfit]
          simp only [List.nil_append, List.length_singleton, limitOf]
          omega
        · rw [if_neg hfit]
          simp
  · rw [lookupAssoc_update_ne _ _ _ _ hcat] at h2
    cases hl : lookupAssoc c.data cat with
    | some e =>
        have hdata0 : (if (lookupAssoc c.data cat).isSome = true then c.data
            else c.data ++ [(cat, (⟨0, 0, []⟩ : CollectorEntry))]) = c.data := by
          rw [hl]; simp
        rw [hdata0] at h2
        exact h cat2 e2 h2
    | none =>
        have hdata0 : (if (lookupAssoc c.data cat).isSome = true then c.data
            else c.data ++ [(cat, (⟨0, 0, []⟩ : CollectorEntry))])
              = c.data ++ [(cat, (⟨0, 0, []⟩ : CollectorEntry))] := by
          rw [hl]; simp
        rw [hdata0, lookupAssoc_append] at h2
        have hnone : lookupAssoc [(cat, (⟨0, 0, []⟩ : CollectorEntry))] cat2 = none := by
          simp [lookupAssoc, hcat]
        rw [hnone] at h2
        cases hl2 : lookupAssoc c.data cat2 with
        | some e =>
            rw [hl2] at h2
            cases h2
            exact h cat2 _ hl2
        | none => rw [hl2] at h2; cases h2

/-- Both collector calls preserve the sample-cap invariant. -/
theorem sampleInv_applyOp (c : SummaryCollector) (op : CollectorOp) (h : sampleInv c) :
    sampleInv (applyOp c op) := by
  cases op with
  | add cat summary opts => exact sampleInv_add c cat summary opts h
  | trackFile p =>
      intro cat e h2
      have hd : (applyOp c (CollectorOp.trackFile p)).data = c.data := rfl
      have hl : limitOf (applyOp c (CollectorOp.trackFile p)) cat = limitOf c cat := rfl
      rw [hd] at h2
      rw [hl]
      exact h cat e h2

/-- Any run of calls preserves the sample-cap invariant. -/
theorem sampleInv_runOps (ops : List CollectorOp) :
    ∀ c : SummaryCollector, sampleInv c → sampleInv (runOps c ops) := by
  induction ops with
  | nil => intro c h; exact h
  | cons op rest ih => intro c h; exact ih _ (sampleInv_applyOp c op h)

/-- Key-uniqueness invariant of the category map (a JS `Map` holds one
entry per key). -/
def keysInv (c : SummaryCollector) : Prop :=
  (c.data.map Prod.fst).Nodup

/-- Both collector calls preserve key uniqueness. -/
theorem keysInv_applyOp (c : SummaryCollector) (op : CollectorOp) (h : keysInv c) :
    keysInv (applyOp c op) := by
  cases op with
  | trackFile p => exact h
  | add cat summary opts =>
      show ((c.add cat summary opts).data.map Prod.fst).Nodup
      unfold SummaryCollector.add
      simp only []
      rw [updateAssoc_map_fst]
      cases hl : lookupAssoc c.data cat with
      | some e => simp only [hl, Option.isSome_some, if_true]; exact h
      | none =>
          simp only [hl, Option.isSome_none, Bool.false_eq_true, if_false, List.map_append]
          have hmem : cat ∉ c.data.map Prod.fst := (lookupAssoc_eq_none_iff _ _).mp hl
          simp only [List.nodup_append, List.map_cons, List.map_nil]
          refine ⟨h, by simp, ?_⟩
          simp only [List.disjoint_singleton]
          exact hmem

/-- Any run of calls preserves key uniqueness. -/
theorem keysInv_runOps (ops : List CollectorOp) :
    ∀ c : SummaryCollector, keysInv c → keysInv (runOps c ops) := by
  induction ops with
  | nil => intro c h; exact h
  | cons op rest ih => intro c h; exact ih _ (keysInv_applyOp c op h)

/-- With unique keys, a summary in `getSummaries` comes from the entry that
lookup finds under its name. -/
theorem mem_getSummaries_lookup (l : List (String × CollectorEntry))
    (s : ToolUsageSummary) (hnd : (l.map Prod.fst).Nodup)
    (hmem : s ∈ l.map toSummary) :
    ∃ e : CollectorEntry, lookupAssoc l s.name = some e
      ∧ s.count = e.count ∧ s.samples = e.samples := by
  induction l with
  | nil => simp at hmem
  | cons kv rest ih =>
      rcases kv with ⟨k, e⟩
      simp only [List.map_cons, List.mem_cons] at hmem
      simp only [List.map_cons, List.nodup_cons] at hnd
      rcases hmem with hs | hs
      · subst hs
        exact ⟨e, by simp [lookupAssoc, toSummary], rfl, rfl⟩
      · have hname : s.name ∈ rest.map Prod.fst := by
          rcases List.mem_map.mp hs with ⟨kv2, hkv2, hs2⟩
          subst hs2
          exact List.mem_map.mpr ⟨kv2, hkv2, rfl⟩
        have hne : k ≠ s.name := fun hk => hnd.1 (hk ▸ hname)
        rcases ih hnd.2 hs with ⟨e2, he2, hc, hsamp⟩
        exact ⟨e2, by simp [lookupAssoc, hne, he2], hc, hsamp⟩

/-- C1: after any sequence of collector calls under any resolved
configuration, each reported `ToolUsageSummary` retains at most its
category's configured cap of samples (`DEFAULT_SAMPLE_LIMIT` when the
category has no configured cap), while its reported count is exactly the
number of `add` calls for that category, even beyond the cap. -/
theorem collector_cap_and_count (cfg : VerbosityConfig) (ops : List CollectorOp)
    (s : ToolUsageSummary)
    (hmem : s ∈ (runOps (SummaryCollector.create (some cfg)) ops).getSummaries) :
    s.samples.length ≤ (lookupAssoc (buildCategoryLimits cfg) s.name).getD DEFAULT_SAMPLE_LIMIT
      ∧ s.count = countCategory ops s.name := by
  set c := runOps (SummaryCollector.create (some cfg)) ops with hc
  have hkeys : keysInv c :=
    keysInv_runOps ops _ (by simp [keysInv, SummaryCollector.create])
  rcases mem_getSummaries_lookup c.data s hkeys hmem with ⟨e, he, hcount, hsamp⟩
  constructor
  · have hsinv : sampleInv c := sampleInv_runOps ops _ (sampleInv_create (some cfg))
    have hl := hsinv s.name e he
    have hlim : c.categoryLimits = buildCategoryLimits cfg := by
      rw [hc, runOps_categoryLimits]
      rfl
    rw [hsamp]
    simpa [limitOf, hlim] using hl
  · have hrun := runOps_countOf ops (SummaryCollector.create (some cfg)) s.name
    rw [← hc] at hrun
    have hzero : countOf (SummaryCollector.create (some cfg)) s.name = 0 := rfl
    rw [hzero] at hrun
    unfold countOf at hrun
    rw [he] at hrun
    simpa [hcount] using hrun

/-- Witness for C1: one `add` call for `shell` under the standard preset. -/
theorem collector_cap_and_count_witness :
    ({ name := "shell", count := 1, errorCount := none,
       samples := [{ summary := "$ ls", data := none }] } : ToolUsageSummary)
      ∈ (runOps (SummaryCollector.create (some standardPreset))
          [.add "shell" "$ ls" ⟨none, none, false, false⟩]).getSummaries ∧
    (1 : Nat) ≤ (lookupAssoc (buildCategoryLimits standardPreset) "shell").getD DEFAULT_SAMPLE_LIMIT ∧
    (1 : Nat) = countCategory [.add "shell" "$ ls" ⟨none, none, false, false⟩] "shell" := by
  refine ⟨by decide, ?_, ?_⟩
  · exact (collector_cap_and_count standardPreset
      [.add "shell" "$ ls" ⟨none, none, false, false⟩]
      { name := "shell", count := 1, errorCount := none,
        samples := [{ summary := "$ ls", data := none }] } (by decide)).1
  · exact (collector_cap_and_count standardPreset
      [.add "shell" "$ ls" ⟨none, none, false, false⟩]
      { name := "shell", count := 1, errorCount := none,
        samples := [{ summary := "$ ls", data := none }] } (by decide)).2

/-- File-set invariant: the modified-file list stays duplicate-free. -/
theorem addFileSet_nodup (files : List String) (p : String) (h : files.Nodup) :
    (addFileSet files p).Nodup := by
  unfold addFileSet
  by_cases hmem : p ∈ files
  · rw [if_pos hmem]; exact h
  · rw [if_neg hmem]
    simp [List.nodup_append, h, hmem]

/-- Both collector calls preserve the file-set invariant. -/
theorem filesNodup_applyOp (c : SummaryCollector) (op : CollectorOp)
    (h : c.files.Nodup) : (applyOp c op).files.Nodup := by
  cases op with
  | trackFile p => exact addFileSet_nodup c.files p h
  | add cat summary opts =>
      show (c.add cat summary opts).files.Nodup
      unfold SummaryCollector.add
      simp only []
      cases opts.isWrite <;> cases opts.filePath <;>
        first
          | exact h
          | exact addFileSet_nodup c.files _ h

/-- C8: after any sequence of `add` and `trackFile` calls,
`getFilesModified()` lists each path at most once. -/
theorem files_modified_nodup (config : Option VerbosityConfig) (ops : List CollectorOp) :
    ((runOps (SummaryCollector.create config) ops).getFilesModified).Nodup := by
  have key : ∀ (l : List CollectorOp) (c : SummaryCollector),
      c.files.Nodup → (runOps c l).files.Nodup := by
    intro l
    induction l with
    | nil => intro c h; exact h
    | cons op rest ih => intro c h; exact ih _ (filesNodup_applyOp c op h)
  exact key ops _ (by simp [SummaryCollector.create])

/-- `getF` after `setF` at the same key. -/
theorem getF_setF_self : ∀ (f : Fields) (k : String) (v : Json),
    getF (setF f k v) k = some v
  | .nil, k, v => by simp [setF, getF]
  | .cons k1 v1 rest, k, v => by
      by_cases h : k1 = k
      · simp [setF, getF, h]
      · simp only [setF, h, if_false, getF]
        exact getF_setF_self rest k v

/-- `getF` after `setF` at a different key. -/
theorem getF_setF_ne : ∀ (f : Fields) (k1 k : String) (v : Json), k1 ≠ k →
    getF (setF f k1 v) k = getF f k
  | .nil, k1, k, v, h => by simp [setF, getF, h]
  | .cons k2 v2 rest, k1, k, v, h => by
      by_cases h2 : k2 = k1
      · subst h2
        simp [setF, getF, h]
      · simp only [setF, h2, if_false, getF]
        by_cases h3 : k2 = k
        · simp [h3]
        · rw [if_neg h3, if_neg h3]
          exact getF_setF_ne rest k1 k v h

/-- What one merge iteration leaves under its own key. -/
def mergeVal : Option Json → Json → Json
  | some (.obj b), .obj o => .obj (mergeFields b o)
  | _, v => v

/-- `mergeStep` rewrites exactly its own key. -/
theorem getF_mergeStep_self (bf : Fields) (k : String) (v : Json) :
    getF (mergeStep bf k v) k = some (mergeVal (getF bf k) v) := by
  unfold mergeStep mergeVal
  cases hb : getF bf k with
  | none => cases v <;> simp [hb, getF_setF_self]
  | some bv => cases bv <;> cases v <;> simp [hb, getF_setF_self]

/-- `mergeStep` leaves every other key unchanged. -/
theorem getF_mergeStep_ne (bf : Fields) (k1 k : String) (v : Json) (h : k1 ≠ k) :
    getF (mergeStep bf k1 v) k = getF bf k := by
  unfold mergeStep
  cases hb : getF bf k1 with
  | none => cases v <;> simp [hb, getF_setF_ne _ _ _ _ h]
  | some bv => cases bv <;> cases v <;> simp [hb, getF_setF_ne _ _ _ _ h]

/-- Merging override entries whose keys avoid `k` does not change `k`'s
value. -/
theorem getF_mergeFields_absent : ∀ (rf bf : Fields) (k : String),
    (keysF rf).contains k = false → getF (mergeFields bf rf) k = getF bf k
  | .nil, bf, k, _ => by simp [mergeFields]
  | .cons k1 v1 rest, bf, k, h => by
      have h1 : (k == k1) = false ∧ (keysF rest).contains k = false := by
        simpa [keysF, List.contains_cons] using h
      have hne : k1 ≠ k := by
        intro e
        rw [e] at h1
        simp at h1
      rw [show mergeFields bf (.cons k1 v1 rest)
            = mergeFields (mergeStep bf k1 v1) rest from by simp [mergeFields]]
      rw [getF_mergeFields_absent rest (mergeStep bf k1 v1) k h1.2,
          getF_mergeStep_ne _ _ _ _ hne]

/-- With unique override keys, the merged object holds, under each override
key, the merge of the base value with the override value. -/
theorem getF_mergeFields : ∀ (rf bf : Fields) (k : String) (v : Json),
    nodupKeysF rf = true → getF rf k = some v →
    getF (mergeFields bf rf) k = some (mergeVal (getF bf k) v)
  | .nil, bf, k, v, _, hget => by simp [getF] at hget
  | .cons k1 v1 rest, bf, k, v, hnd, hget => by
      have hnd2 : (keysF rest).contains k1 = false ∧ nodupKeysF rest = true := by
        simpa [nodupKeysF, Bool.and_eq_true, Bool.not_eq_true'] using hnd
      rw [show mergeFields bf (.cons k1 v1 rest)
            = mergeFields (mergeStep bf k1 v1) rest from by simp [mergeFields]]
      by_cases h : k1 = k
      · subst h
        rw [show getF (.cons k1 v1 rest) k1 = some v1 from by simp [getF]] at hget
        cases hget
        rw [getF_mergeFields_absent rest _ _ hnd2.1, getF_mergeStep_self]
      · rw [show getF (.cons k1 v1 rest) k = getF rest k from by simp [getF, h]] at hget
        rw [getF_mergeFields rest (mergeStep bf k1 v1) k v hnd2.2 hget,
            getF_mergeStep_ne _ _ _ _ h]

/-- Values inside a well-formed field list are well-formed. -/
theorem wfJson_of_getF : ∀ (rf : Fields) (k : String) (v : Json),
    wfFields rf = true → getF rf k = some v → wfJson v = true
  | .nil, k, v, _, hget => by simp [getF] at hget
  | .cons k1 v1 rest, k, v, hwf, hget => by
      rw [show wfFields (.cons k1 v1 rest) = (wfJson v1 && wfFields rest) from by
            simp [wfFields],
          Bool.and_eq_true] at hwf
      by_cases h : k1 = k
      · subst h
        rw [show getF (.cons k1 v1 rest) k1 = some v1 from by simp [getF]] at hget
        cases hget
        exact hwf.1
      · rw [show getF (.cons k1 v1 rest) k = getF rest k from by simp [getF, h]] at hget
        exact wfJson_of_getF rest k v hwf.2 hget

/-- Does the tree hold an integer at this path? -/
def hasNumAt (t : Json) (p : List String) : Bool :=
  match lookupPath t p with
  | some (.num _) => true
  | _ => false

/-- Deep-merging a well-formed override onto a base preserves, at any path
where the base holds a number, the number the override holds there. -/
theorem lookupPath_merge_num : ∀ (p : List String) (bf rf : Fields) (n : Int),
    wfJson (.obj rf) = true →
    hasNumAt (.obj bf) p = true →
    lookupPath (.obj rf) p = some (.num n) →
    lookupPath (.obj (mergeFields bf rf)) p = some (.num n)
  | [], bf, rf, n, _, _, hlook => by simp [lookupPath] at hlook
  | k :: rest, bf, rf, n, hwf, hbase, hlook => by
      rw [show wfJson (.obj rf) = (nodupKeysF rf && wfFields rf) from by simp [wfJson],
          Bool.and_eq_true] at hwf
      simp only [lookupPath] at hlook
      unfold hasNumAt at hbase
      simp only [lookupPath] at hbase
      rcases hv : getF rf k with _ | v
      · rw [hv] at hlook
        simp at hlook
      · rw [hv] at hlook
        have hlook2 : lookupPath v rest = some (.num n) := hlook
        rcases hbv : getF bf k with _ | bv
        · rw [hbv] at hbase
          simp at hbase
        · rw [hbv] at hbase
          have hbase2 : hasNumAt bv rest = true := hbase
          simp only [lookupPath]
          rw [getF_mergeFields rf bf k v hwf.1 hv, hbv]
          show lookupPath (mergeVal (some bv) v) rest = some (.num n)
          cases rest with
          | nil =>
              simp only [lookupPath] at hlook2
              cases hlook2
              cases bv <;> simp [mergeVal, lookupPath]
          | cons k2 rest2 =>
              rcases v with n1 | s1 | b1 | o
              · simp [lookupPath] at hlook2
              · simp [lookupPath] at hlook2
              · simp [lookupPath] at hlook2
              · rcases bv with n2 | s2 | b2 | b
                · simp [hasNumAt, lookupPath] at hbase2
                · simp [hasNumAt, lookupPath] at hbase2
                · simp [hasNumAt, lookupPath] at hbase2
                · rw [show mergeVal (some (.obj b)) (.obj o)
                        = .obj (mergeFields b o) from rfl]
                  exact lookupPath_merge_num (k2 :: rest2) b o n
                    (wfJson_of_getF rf k (.obj o) hwf.2 hv) hbase2 hlook2

/-- Every base preset tree is an object. -/
theorem presetTreeFor_obj (name : String) : ∃ bf, presetTreeFor name = .obj bf := by
  unfold presetTreeFor
  split_ifs <;> exact ⟨_, rfl⟩

/-- Every base preset tree carries a non-negative integer at every cap
path. -/
theorem presetTreeFor_capsOK (name : String) :
    capPaths.all (capOKAt (presetTreeFor name)) = true := by
  unfold presetTreeFor
  split_ifs <;> decide

/-- A non-negative integer at a path is in particular an integer. -/
theorem hasNumAt_of_capOKAt (t : Json) (p : List String) (h : capOKAt t p = true) :
    hasNumAt t p = true := by
  unfold capOKAt at h
  unfold hasNumAt
  rcases hl : lookupPath t p with _ | v
  · rw [hl] at h
    exact h
  · rcases v with n | s | b | f <;> rw [hl] at h <;> first | rfl | exact h

/-- C5: an override tree holding a negative number at any numeric cap path
makes schema validation of the merged tree fail, so `parseUserConfig`
returns the selected base preset unchanged — a tree all of whose caps are
non-negative, so the negative value never reaches the resolved
configuration. -/
theorem negative_cap_falls_back (rf : Fields) (p : List String) (n : Int)
    (hwf : wfJson (.obj rf) = true) (hp : p ∈ capPaths) (hneg : n < 0)
    (hlook : lookupPath (.obj rf) p = some (.num n)) :
    validateConfig (deepMerge (presetTreeFor (selectedPresetName rf)) (.obj rf)) = false ∧
    parseUserConfig (.obj rf) = presetTreeFor (selectedPresetName rf) ∧
    capPaths.all (capOKAt (presetTreeFor (selectedPresetName rf))) = true := by
  rcases presetTreeFor_obj (selectedPresetName rf) with ⟨bf, hbf⟩
  have hbaseOK := presetTreeFor_capsOK (selectedPresetName rf)
  have hbasep : capOKAt (presetTreeFor (selectedPresetName rf)) p = true :=
    List.all_eq_true.mp hbaseOK p hp
  have hnum : hasNumAt (.obj bf) p = true := by
    rw [← hbf]
    exact hasNumAt_of_capOKAt _ _ hbasep
  have hmergedeq : deepMerge (presetTreeFor (selectedPresetName rf)) (.obj rf)
      = .obj (mergeFields bf rf) := by
    rw [hbf]
    simp [deepMerge]
  have hmerged : lookupPath (deepMerge (presetTreeFor (selectedPresetName rf)) (.obj rf)) p
      = some (.num n) := by
    rw [hmergedeq]
    exact lookupPath_merge_num p bf rf n hwf hnum hlook
  have hcapfail : capOKAt (deepMerge (presetTreeFor (selectedPresetName rf)) (.obj rf)) p
      = false := by
    unfold capOKAt
    rw [hmerged]
    simp only [decide_eq_false_iff_not]
    omega
  have hallfail : capPaths.all
      (capOKAt (deepMerge (presetTreeFor (selectedPresetName rf)) (.obj rf))) = false := by
    rcases hallv : capPaths.all
        (capOKAt (deepMerge (presetTreeFor (selectedPresetName rf)) (.obj rf))) with _ | _
    · rfl
    · have := List.all_eq_true.mp hallv p hp
      rw [hcapfail] at this
      cases this
  have hval : validateConfig (deepMerge (presetTreeFor (selectedPresetName rf)) (.obj rf))
      = false := by
    unfold validateConfig
    rw [hallfail]
    simp
  refine ⟨hval, ?_, hbaseOK⟩
  have hunfold : parseUserConfig (.obj rf)
      = if validateConfig (deepMerge (presetTreeFor (selectedPresetName rf)) (.obj rf))
        then deepMerge (presetTreeFor (selectedPresetName rf)) (.obj rf)
        else presetTreeFor (selectedPresetName rf) := rfl
  rw [hunfold, hval]
  simp

/-- Witness for C5: the override `{shell: {maxSamples: -1}}`. -/
theorem negative_cap_falls_back_witness :
    wfJson (.obj (.cons "shell" (.obj (.cons "maxSamples" (.num (-1)) .nil)) .nil)) = true ∧
    ["shell", "maxSamples"] ∈ capPaths ∧
    (-1 : Int) < 0 ∧
    lookupPath (.obj (.cons "shell" (.obj (.cons "maxSamples" (.num (-1)) .nil)) .nil))
      ["shell", "maxSamples"] = some (.num (-1)) ∧
    parseUserConfig (.obj (.cons "shell" (.obj (.cons "maxSamples" (.num (-1)) .nil)) .nil))
      = presetTreeFor (selectedPresetName
          (.cons "shell" (.obj (.cons "maxSamples" (.num (-1)) .nil)) .nil)) :=
  ⟨by decide, by decide, by decide, by decide,
   (negative_cap_falls_back
      (.cons "shell" (.obj (.cons "maxSamples" (.num (-1)) .nil)) .nil)
      ["shell", "maxSamples"] (-1) (by decide) (by decide) (by decide) (by decide)).2.1⟩
